import Mathlib

/-!
Verification model of the `datahash` package (go-sqlt/datahash): a 64-bit
content hasher for arbitrary runtime values.  The definitions below are a
shallow embedding of the final version of `datahash.go`: the type-to-encoder
compiler `makeHashFunc` (here `compile`), the compiled encoder closures
(`encodeF` over the `Encoder` tree), the per-call container with its visited
pointer list, the XOR folding of unordered collections, and the `Hash`
facade.  Machine integers are modelled as `Nat`/`Int` with explicit
reductions modulo `2 ^ 64`.
-/

namespace Datahash

/-- Byte strings are lists of naturals (each below 256 by construction). -/
abbrev Bytes := List Nat

/-- The pluggable streaming 64-bit accumulator (`hash.Hash64`): an initial
state (`Reset`), a byte write, and a 64-bit sum.  The engine only uses this
interface. -/
structure Acc (σ : Type) where
  init : σ
  write1 : σ → Nat → σ
  sum64 : σ → Nat

/-- Write a byte string into the accumulator. -/
def writeB {σ : Type} (acc : Acc σ) (s : σ) (bs : Bytes) : σ :=
  bs.foldl acc.write1 s

/-- Read the 64-bit digest: `Sum64` returns a `uint64`, modelled by reducing
modulo `2 ^ 64`. -/
def sum64M {σ : Type} (acc : Acc σ) (s : σ) : Nat :=
  acc.sum64 s % 2 ^ 64

/-- Reserved framing byte `byteFalse = 0x00`. -/
def byteFalseB : Nat := 0x00

/-- Reserved framing byte `byteTrue = 0x01`. -/
def byteTrueB : Nat := 0x01

/-- Reserved framing byte `colon = 0x02` (key/value separator). -/
def colonB : Nat := 0x02

/-- Reserved framing byte `comma = 0x03` (element separator). -/
def commaB : Nat := 0x03

/-- Reserved framing byte `startSet = 0x04`. -/
def startSetB : Nat := 0x04

/-- Reserved framing byte `endSet = 0x05`. -/
def endSetB : Nat := 0x05

/-- Reserved framing byte `startList = 0x06`. -/
def startListB : Nat := 0x06

/-- Reserved framing byte `endList = 0x07`. -/
def endListB : Nat := 0x07

/-- `binary.LittleEndian.PutUint64`: the eight little-endian base-256 digits
of a 64-bit word. -/
def uint64LE (v : Nat) : Bytes :=
  [v % 256, v / 256 % 256, v / 256 ^ 2 % 256, v / 256 ^ 3 % 256,
   v / 256 ^ 4 % 256, v / 256 ^ 5 % 256, v / 256 ^ 6 % 256, v / 256 ^ 7 % 256]

/-- `uint64(value.Int())`: reinterpret a signed 64-bit integer as unsigned
(two's complement). -/
def toU64 (n : Int) : Nat := (n % (2 ^ 64 : Int)).toNat

/-- Field names are written as their bytes (`stringToBytes`); code points
reduced to bytes. -/
def strBytes (s : String) : Bytes := s.toList.map (fun ch => ch.toNat % 256)

/-- `Options` of the final version: unordered flags per composite kind,
delegate-preference flags (note: no `Binary` flag exists in this version),
`ZeroNil` and `IgnoreZero`. -/
structure Options where
  unorderedStruct : Bool := false
  unorderedArray : Bool := false
  unorderedSlice : Bool := false
  unorderedSeq : Bool := false
  unorderedSeq2 : Bool := false
  text : Bool := false
  json : Bool := false
  string : Bool := false
  zeroNil : Bool := false
  ignoreZero : Bool := false
deriving DecidableEq

/-- Default options (`datahash.Options{}`). -/
def opts0 : Options := {}

/-- Runtime types (`reflect.Type`).  Struct field lists are chain-encoded
with `tfnil`/`tfcons (name) (tag) (fieldType) (rest)` so that equality is
decidable; `tcaps` models a named type implementing some of the interfaces
`HashWriter` / `encoding.BinaryMarshaler` / `encoding.TextMarshaler` /
`json.Marshaler` / `fmt.Stringer` on top of an underlying type.  `tfunc` is
a kind with no dispatch path (e.g. `func()`). -/
inductive Ty where
  | tint
  | tuint
  | tbool
  | tstr
  | tbyteSlice
  | tslice (elem : Ty)
  | tarray (len : Nat) (elem : Ty)
  | tmap (key val : Ty)
  | tptr (elem : Ty)
  | tfunc
  | tcaps (hashWriter binary text json stringer : Bool) (base : Ty)
  | tstruct (fields : Ty)
  | tfnil
  | tfcons (name tag : String) (fty : Ty) (rest : Ty)
deriving DecidableEq

/-- Rendered type name, used in the unsupported-type error (`%q` of the
type). -/
def tyName : Ty → String
  | .tint => "int"
  | .tuint => "uint64"
  | .tbool => "bool"
  | .tstr => "string"
  | .tbyteSlice => "[]uint8"
  | .tslice e => "[]" ++ tyName e
  | .tarray n e => "[" ++ toString n ++ "]" ++ tyName e
  | .tmap k v => "map[" ++ tyName k ++ "]" ++ tyName v
  | .tptr e => "*" ++ tyName e
  | .tfunc => "func()"
  | .tcaps _ _ _ _ _ b => "named " ++ tyName b
  | .tstruct _ => "struct"
  | .tfnil => "fields"
  | .tfcons _ _ _ _ => "fields"

/-- The unsupported-type error of `makeHashFunc`, naming the type. -/
def unsupportedMsg (t : Ty) : String :=
  "datahash: unsupported type: " ++ tyName t ++
    " (missing HashWriter or marshaling interface)"

/-- Runtime values (`reflect.Value`).  `none` marks nil slices / maps /
pointers / byte slices; `vmarshaled out base` is the value of an
interface-implementing named type whose marshal/`WriteHash` output is `out`
and whose underlying value is `base`. -/
inductive Val where
  | vint (n : Int)
  | vuint (n : Nat)
  | vbool (b : Bool)
  | vstr (s : Bytes)
  | vbytes (bs : Option Bytes)
  | vslice (elems : Option (List Val))
  | varray (elems : List Val)
  | vmap (entries : Option (List (Val × Val)))
  | vstruct (fields : List Val)
  | vptr (addr : Nat) (pointee : Option Val)
  | vmarshaled (out : Bytes) (base : Val)
  | vfunc

mutual

/-- `reflect.Value.IsZero` (and the `isZero` helper of the source). -/
def isZeroVal : Val → Bool
  | .vint n => n == 0
  | .vuint n => n == 0
  | .vbool b => !b
  | .vstr s => s.isEmpty
  | .vbytes o => o.isNone
  | .vslice o => o.isNone
  | .varray es => isZeroValL es
  | .vmap o => o.isNone
  | .vstruct fs => isZeroValL fs
  | .vptr _ p => p.isNone
  | .vmarshaled _ b => isZeroVal b
  | .vfunc => true

/-- All values in a list are zero. -/
def isZeroValL : List Val → Bool
  | [] => true
  | v :: r => isZeroVal v && isZeroValL r

end

mutual

/-- `reflect.Zero(t)`: the zero value of a type (used by the `ZeroNil`
branch of the pointer encoder). -/
def zeroVal : Ty → Val
  | .tint => .vint 0
  | .tuint => .vuint 0
  | .tbool => .vbool false
  | .tstr => .vstr []
  | .tbyteSlice => .vbytes none
  | .tslice _ => .vslice none
  | .tarray n e => .varray (List.replicate n (zeroVal e))
  | .tmap _ _ => .vmap none
  | .tptr _ => .vptr 0 none
  | .tfunc => .vfunc
  | .tcaps _ _ _ _ _ b => .vmarshaled [] (zeroVal b)
  | .tstruct flds => .vstruct (zeroFields flds)
  | .tfnil => .vstruct []
  | .tfcons _ _ _ _ => .vstruct []

/-- Zero values of a struct's field chain (all declared fields). -/
def zeroFields : Ty → List Val
  | .tfcons _ _ fty rest => zeroVal fty :: zeroFields rest
  | _ => []

end

mutual

/-- Compiled encoders (`hashFunc` closures).  The struct plan is the chain
of `structField` records (name bytes, field index, field encoder). -/
inductive Encoder where
  | noop
  | ehashWriter
  | ebinary
  | etext
  | ejson
  | estringer
  | estr
  | eint
  | euint
  | ebool
  | ebyteSlice
  | elist (e : Encoder)
  | eset (e : Encoder)
  | emap (khf vhf : Encoder)
  | estructO (plan : Plan)
  | estructU (plan : Plan)
  | eptr (elemTy : Ty) (e : Encoder)

/-- The `[]structField` plan of a compiled struct. -/
inductive Plan where
  | pnil
  | pcons (name : Bytes) (idx : Nat) (hf : Encoder) (rest : Plan)

end

/-- The Hasher's shared compilation state: `hashFuncMap` (the `sync.Map`
cache keyed by type) and the type-level `visited` list — a field of the
Hasher itself, never reset between calls. -/
structure CState where
  cache : List (Ty × Encoder)
  visited : List Ty

/-- Lookup in the type-to-encoder cache (`hashFuncMap.Load`). -/
def cacheFind : List (Ty × Encoder) → Ty → Option Encoder
  | [], _ => none
  | (t', e) :: r, t => if t' = t then some e else cacheFind r t

/-- `checkout`: store the compiled encoder in the cache and return it. -/
def checkout (t : Ty) (e : Encoder) (s : CState) :
    (Except String Encoder) × CState :=
  (.ok e, ⟨(t, e) :: s.cache, s.visited⟩)

mutual

/-- `makeHashFunc`: cache lookup, then the type-level cycle guard (a type
already being compiled resolves to a no-op encoder, without storing it),
then interface dispatch (`HashWriter` first, then `BinaryMarshaler`
unconditionally, then flag-guarded text/JSON/stringer), then kind
dispatch.  The visited list is appended to before dispatch and is never
removed from, even when compilation fails. -/
def compile (opts : Options) (s : CState) (t : Ty) :
    (Except String Encoder) × CState :=
  match cacheFind s.cache t with
  | some e => (.ok e, s)
  | none =>
    if t ∈ s.visited then (.ok .noop, s)
    else
      let s1 : CState := ⟨s.cache, t :: s.visited⟩
      match t with
      | .tcaps hw bin tx js strg base =>
        if hw then checkout t .ehashWriter s1
        else if bin then checkout t .ebinary s1
        else if opts.text && tx then checkout t .etext s1
        else if opts.json && js then checkout t .ejson s1
        else if opts.string && strg then checkout t .estringer s1
        else compileUnder opts s1 t base
      | .tptr e =>
        match compile opts s1 e with
        | (.error msg, s2) => (.error msg, s2)
        | (.ok ehf, s2) => checkout t (.eptr e ehf) s2
      | .tstr => checkout t .estr s1
      | .tint => checkout t .eint s1
      | .tuint => checkout t .euint s1
      | .tbool => checkout t .ebool s1
      | .tarray _ e =>
        match compile opts s1 e with
        | (.error msg, s2) => (.error msg, s2)
        | (.ok vhf, s2) =>
          checkout t (if opts.unorderedArray then .eset vhf else .elist vhf) s2
      | .tbyteSlice => checkout t .ebyteSlice s1
      | .tslice e =>
        match compile opts s1 e with
        | (.error msg, s2) => (.error msg, s2)
        | (.ok vhf, s2) =>
          checkout t (if opts.unorderedSlice then .eset vhf else .elist vhf) s2
      | .tmap k v =>
        match compile opts s1 k with
        | (.error msg, s2) => (.error msg, s2)
        | (.ok khf, s2) =>
          match compile opts s2 v with
          | (.error msg, s3) => (.error msg, s3)
          | (.ok vhf, s3) => checkout t (.emap khf vhf) s3
      | .tstruct flds =>
        match compileFields opts s1 flds 0 with
        | (.error msg, s2) => (.error msg, s2)
        | (.ok plan, s2) =>
          checkout t (if opts.unorderedStruct then .estructU plan else .estructO plan) s2
      | .tfunc => (.error (unsupportedMsg t), s1)
      | .tfnil => (.error (unsupportedMsg t), s1)
      | .tfcons _ _ _ _ => (.error (unsupportedMsg t), s1)

/-- Kind dispatch for the underlying type of a named (`tcaps`) type whose
interface checks all failed; the cache entry is still keyed by the named
type `t`. -/
def compileUnder (opts : Options) (s : CState) (t : Ty) (u : Ty) :
    (Except String Encoder) × CState :=
  match u with
  | .tcaps _ _ _ _ _ base => compileUnder opts s t base
  | .tptr e =>
    match compile opts s e with
    | (.error msg, s2) => (.error msg, s2)
    | (.ok ehf, s2) => checkout t (.eptr e ehf) s2
  | .tstr => checkout t .estr s
  | .tint => checkout t .eint s
  | .tuint => checkout t .euint s
  | .tbool => checkout t .ebool s
  | .tarray _ e =>
    match compile opts s e with
    | (.error msg, s2) => (.error msg, s2)
    | (.ok vhf, s2) =>
      checkout t (if opts.unorderedArray then .eset vhf else .elist vhf) s2
  | .tbyteSlice => checkout t .ebyteSlice s
  | .tslice e =>
    match compile opts s e with
    | (.error msg, s2) => (.error msg, s2)
    | (.ok vhf, s2) =>
      checkout t (if opts.unorderedSlice then .eset vhf else .elist vhf) s2
  | .tmap k v =>
    match compile opts s k with
    | (.error msg, s2) => (.error msg, s2)
    | (.ok khf, s2) =>
      match compile opts s2 v with
      | (.error msg, s3) => (.error msg, s3)
      | (.ok vhf, s3) => checkout t (.emap khf vhf) s3
  | .tstruct flds =>
    match compileFields opts s flds 0 with
    | (.error msg, s2) => (.error msg, s2)
    | (.ok plan, s2) =>
      checkout t (if opts.unorderedStruct then .estructU plan else .estructO plan) s2
  | .tfunc => (.error (unsupportedMsg t), s)
  | .tfnil => (.error (unsupportedMsg t), s)
  | .tfcons _ _ _ _ => (.error (unsupportedMsg t), s)

/-- The struct-field loop of `makeHashFunc`: skip fields tagged `"-"`
(this is the only tag handling in this version), compile each remaining
field's type, and record `(name bytes, index, encoder)` in declaration
order. -/
def compileFields (opts : Options) (s : CState) (flds : Ty) (i : Nat) :
    (Except String Plan) × CState :=
  match flds with
  | .tfcons nm tag fty rest =>
    if tag = "-" then compileFields opts s rest (i + 1)
    else
      match compile opts s fty with
      | (.error msg, s2) => (.error msg, s2)
      | (.ok hf, s2) =>
        match compileFields opts s2 rest (i + 1) with
        | (.error msg, s3) => (.error msg, s3)
        | (.ok plan, s3) => (.ok (.pcons (strBytes nm) i hf plan), s3)
  | _ => (.ok .pnil, s)

end

/-- Peel the named-type wrapper off a value to reach its underlying
structural representation (a named type's kind is its underlying kind). -/
def stripM : Val → Val
  | .vmarshaled _ b => stripM b
  | v => v

/-- The element list of a slice or array value (`value.Len`/`value.Index`);
`none` when the value is not a sequence (an invalid value for the
sequence encoders). -/
def elemsOpt (v : Val) : Option (List Val) :=
  match stripM v with
  | .vslice o => some (o.getD [])
  | .varray es => some es
  | _ => none

/-- `value.Field(i)`: the `i`-th field of a struct value, `none` when the
value has no such field (an invalid field value). -/
def fieldAt (v : Val) (i : Nat) : Option Val :=
  match stripM v with
  | .vstruct fs => fs.get? i
  | _ => none

/-- The ordered element loop of `hashSliceArray`: skip invalid/zero
elements (under `IgnoreZero`), write the `comma` separator before every
element but the first emitted one, and feed each element to the element
encoder. -/
def encListWith {σ : Type} (acc : Acc σ) (opts : Options)
    (f : Val → List Nat → σ → σ × List Nat) :
    List Val → Bool → List Nat → σ → σ × List Nat
  | [], _, vis, s => (s, vis)
  | v :: rest, first, vis, s =>
    if opts.ignoreZero && isZeroVal v then encListWith acc opts f rest first vis s
    else
      let s' := if first then s else acc.write1 s commaB
      let p := f v vis s'
      encListWith acc opts f rest false p.2 p.1

/-- The XOR fold of `hashUnorderedSliceArray`: each kept element is encoded
into a freshly reset temporary container (empty visited list, initial
accumulator state) and the 64-bit sub-digests are XOR-combined. -/
def setFoldWith {σ : Type} (acc : Acc σ) (opts : Options)
    (f : Val → List Nat → σ → σ × List Nat) :
    List Val → Nat → Nat
  | [], r => r
  | v :: rest, r =>
    if opts.ignoreZero && isZeroVal v then setFoldWith acc opts f rest r
    else
      setFoldWith acc opts f rest
        (Nat.xor r (sum64M acc (f v [] acc.init).1))

/-- The sub-digest of one map entry: key, `colon`, value encoded into a
fresh temporary container (the visited list threads from key into value
within the entry). -/
def pairSub {σ : Type} (acc : Acc σ)
    (fk fv : Val → List Nat → σ → σ × List Nat) (k v : Val) : Nat :=
  let p1 := fk k [] acc.init
  let p2 := fv v p1.2 (acc.write1 p1.1 colonB)
  sum64M acc p2.1

/-- The XOR fold of `hashMap`: for each entry whose value is kept, the
entry's sub-digest is XOR-combined into the running fold. -/
def mapFoldWith {σ : Type} (acc : Acc σ) (opts : Options)
    (fk fv : Val → List Nat → σ → σ × List Nat) :
    List (Val × Val) → Nat → Nat
  | [], r => r
  | (k, v) :: rest, r =>
    if opts.ignoreZero && isZeroVal v then mapFoldWith acc opts fk fv rest r
    else mapFoldWith acc opts fk fv rest (Nat.xor r (pairSub acc fk fv k v))

mutual

/-- The compiled encoder closures, one arm per `hashFunc` of the source:
delegates write the value's marshal output; scalars write fixed-width
little-endian words or raw string bytes; sequences wrap the element
encoder in the ordered (`startList`/`comma`/`endList`) or folded
(`startSet`/XOR/`endSet`, 8-byte fold omitted when zero) strategy; maps
are always folded; struct plans are walked ordered or folded; pointers
skip on nil (or encode the pointee's zero value under `ZeroNil`) and
consult/extend the per-call visited address list. -/
def encodeF {σ : Type} (acc : Acc σ) (opts : Options) :
    Encoder → Val → List Nat → σ → σ × List Nat
  | .noop => fun _ vis s => (s, vis)
  | .ehashWriter => fun v vis s =>
    if opts.ignoreZero && isZeroVal v then (s, vis)
    else
      match v with
      | .vmarshaled out _ => (writeB acc s out, vis)
      | _ => (s, vis)
  | .ebinary => fun v vis s =>
    if opts.ignoreZero && isZeroVal v then (s, vis)
    else
      match v with
      | .vmarshaled out _ => (writeB acc s out, vis)
      | _ => (s, vis)
  | .etext => fun v vis s =>
    if opts.ignoreZero && isZeroVal v then (s, vis)
    else
      match v with
      | .vmarshaled out _ => (writeB acc s out, vis)
      | _ => (s, vis)
  | .ejson => fun v vis s =>
    if opts.ignoreZero && isZeroVal v then (s, vis)
    else
      match v with
      | .vmarshaled out _ => (writeB acc s out, vis)
      | _ => (s, vis)
  | .estringer => fun v vis s =>
    if opts.ignoreZero && isZeroVal v then (s, vis)
    else
      match v with
      | .vmarshaled out _ => (writeB acc s out, vis)
      | _ => (s, vis)
  | .estr => fun v vis s =>
    match stripM v with
    | .vstr bs => (writeB acc s bs, vis)
    | _ => (s, vis)
  | .eint => fun v vis s =>
    match stripM v with
    | .vint n => (writeB acc s (uint64LE (toU64 n)), vis)
    | _ => (s, vis)
  | .euint => fun v vis s =>
    match stripM v with
    | .vuint n => (writeB acc s (uint64LE n), vis)
    | _ => (s, vis)
  | .ebool => fun v vis s =>
    match stripM v with
    | .vbool true => (acc.write1 s byteTrueB, vis)
    | .vbool false => (acc.write1 s byteFalseB, vis)
    | _ => (s, vis)
  | .ebyteSlice => fun v vis s =>
    if opts.ignoreZero && isZeroVal v then (s, vis)
    else
      match stripM v with
      | .vbytes o => (writeB acc s (o.getD []), vis)
      | _ => (s, vis)
  | .elist e => fun v vis s =>
    if opts.ignoreZero && isZeroVal v then (s, vis)
    else
      match elemsOpt v with
      | none => (s, vis)
      | some es =>
        let p := encListWith acc opts (encodeF acc opts e) es true vis
          (acc.write1 s startListB)
        (acc.write1 p.1 endListB, p.2)
  | .eset e => fun v vis s =>
    if opts.ignoreZero && isZeroVal v then (s, vis)
    else
      match elemsOpt v with
      | none => (s, vis)
      | some es =>
        let s' := acc.write1 s startSetB
        let r := setFoldWith acc opts (encodeF acc opts e) es 0
        if r = 0 then (acc.write1 s' endSetB, vis)
        else (acc.write1 (writeB acc s' (uint64LE r)) endSetB, vis)
  | .emap khf vhf => fun v vis s =>
    match stripM v with
    | .vmap o =>
      let s' := acc.write1 s startSetB
      let r := mapFoldWith acc opts (encodeF acc opts khf) (encodeF acc opts vhf)
        (o.getD []) 0
      if r = 0 then (acc.write1 s' endSetB, vis)
      else (acc.write1 (writeB acc s' (uint64LE r)) endSetB, vis)
    | _ => (s, vis)
  | .estructO plan => fun v vis s =>
    match stripM v with
    | .vstruct _ =>
      let p := walkO acc opts plan v true vis (acc.write1 s startListB)
      (acc.write1 p.1 endListB, p.2)
    | _ => (s, vis)
  | .estructU plan => fun v vis s =>
    match stripM v with
    | .vstruct _ =>
      let s' := acc.write1 s startSetB
      let r := walkUFold acc opts plan v 0
      if r = 0 then (acc.write1 s' endSetB, vis)
      else (acc.write1 (writeB acc s' (uint64LE r)) endSetB, vis)
    | _ => (s, vis)
  | .eptr elemTy e => fun v vis s =>
    match v with
    | .vptr _ none =>
      if opts.zeroNil then encodeF acc opts e (zeroVal elemTy) vis s
      else (s, vis)
    | .vptr addr (some pv) =>
      if addr ∈ vis then (s, vis)
      else encodeF acc opts e pv (addr :: vis) s
    | _ => (s, vis)

/-- The ordered struct-field walk of `hashStruct`: for each plan entry,
read the field, skip it when invalid or zero under `IgnoreZero`
(contributing nothing, separators included), otherwise write the `comma`
separator (except before the first emitted field), the field name bytes,
the `colon`, and the field's encoding. -/
def walkO {σ : Type} (acc : Acc σ) (opts : Options) :
    Plan → Val → Bool → List Nat → σ → σ × List Nat
  | .pnil => fun _ _ vis s => (s, vis)
  | .pcons name idx hf rest => fun v first vis s =>
    match fieldAt v idx with
    | none => walkO acc opts rest v first vis s
    | some fv =>
      if opts.ignoreZero && isZeroVal fv then walkO acc opts rest v first vis s
      else
        let s1 := if first then s else acc.write1 s commaB
        let s2 := acc.write1 (writeB acc s1 name) colonB
        let p := encodeF acc opts hf fv vis s2
        walkO acc opts rest v false p.2 p.1

/-- The folded struct-field walk of `hashStruct` under `UnorderedStruct`:
each kept field's name, `colon` and encoding go into a fresh temporary
container and the sub-digests are XOR-combined. -/
def walkUFold {σ : Type} (acc : Acc σ) (opts : Options) :
    Plan → Val → Nat → Nat
  | .pnil => fun _ r => r
  | .pcons name idx hf rest => fun v r =>
    match fieldAt v idx with
    | none => walkUFold acc opts rest v r
    | some fv =>
      if opts.ignoreZero && isZeroVal fv then walkUFold acc opts rest v r
      else
        let s1 := acc.write1 (writeB acc acc.init name) colonB
        let p := encodeF acc opts hf fv [] s1
        walkUFold acc opts rest v (Nat.xor r (sum64M acc p.1))

end

/-- `Hasher.Hash`: reset a container (fresh accumulator state, empty
visited address list), return the empty digest for an invalid value,
compile the root encoder (threading the Hasher's shared compilation
state), run it, and return `Sum64`.  On a compile error the digest of the
reset accumulator is returned together with the error. -/
def Hash {σ : Type} (acc : Acc σ) (opts : Options) (st : CState)
    (tv : Option (Ty × Val)) : Nat × Option String × CState :=
  match tv with
  | none => (sum64M acc acc.init, none, st)
  | some (t, v) =>
    match compile opts st t with
    | (.error msg, st') => (sum64M acc acc.init, some msg, st')
    | (.ok enc, st') =>
      let p := encodeF acc opts enc v [] acc.init
      (sum64M acc p.1, none, st')

/-- The compilation state of a freshly constructed Hasher (`New`). -/
def newState : CState := ⟨[], []⟩

/-- The struct plan `makeHashFunc` compiles for the repository test's
self-referential `node` type (`type node struct { Value int; Next *node }`):
while `node`'s fields are being compiled, `*node` is in the Hasher's
visited list and not yet in the cache (`checkout` stores only after the
compile finishes), so the `Next` field's encoder is the type-level no-op,
baked permanently into the cached plan. -/
def nodePlan : Plan :=
  .pcons (strBytes "Value") 0 .eint (.pcons (strBytes "Next") 1 .noop .pnil)

/-- The lazily compiled element loop of the unordered `hashSeq` branch:
skip invalid/zero elements (under `IgnoreZero`), compile the element
encoder from the element type at the first kept element — through the
Hasher's shared compilation state, a compile error aborting the fold —
then encode each kept element into a freshly reset temporary container and
XOR-combine the 64-bit sub-digests. -/
def seqUFold {σ : Type} (acc : Acc σ) (opts : Options) (elemTy : Ty) :
    List Val → Option Encoder → CState → Nat → (Except String Nat) × CState
  | [], _, st, r => (.ok r, st)
  | v :: rest, ovhf, st, r =>
    if opts.ignoreZero && isZeroVal v then seqUFold acc opts elemTy rest ovhf st r
    else
      match ovhf with
      | some vhf =>
        seqUFold acc opts elemTy rest (some vhf) st
          (Nat.xor r (sum64M acc (encodeF acc opts vhf v [] acc.init).1))
      | none =>
        match compile opts st elemTy with
        | (.error msg, st2) => (.error msg, st2)
        | (.ok vhf, st2) =>
          seqUFold acc opts elemTy rest (some vhf) st2
            (Nat.xor r (sum64M acc (encodeF acc opts vhf v [] acc.init).1))

/-- The unordered closure of `hashSeq` (checked out for `CanSeq` types
under `UnorderedSeq`): write `startSet`, run the lazily compiled XOR fold,
then write the 8-byte fold value — omitted when the fold is zero — and
`endSet`.  `none` models an invalid iterator value (the `IsValid` guard
short-circuits to writing nothing). -/
def hashSeqU {σ : Type} (acc : Acc σ) (opts : Options) (elemTy : Ty)
    (es : Option (List Val)) (st : CState) (s : σ) :
    (Except String σ) × CState :=
  match es with
  | none => (.ok s, st)
  | some elems =>
    let s1 := acc.write1 s startSetB
    match seqUFold acc opts elemTy elems none st 0 with
    | (.error msg, st2) => (.error msg, st2)
    | (.ok r, st2) =>
      if r = 0 then (.ok (acc.write1 s1 endSetB), st2)
      else (.ok (acc.write1 (writeB acc s1 (uint64LE r)) endSetB), st2)

/-- The lazily compiled pair loop of the unordered `hashSeq2` branch:
skip entries whose value is invalid or zero (under `IgnoreZero`), compile
the key and value encoders from the first kept pair's types, and XOR the
per-pair sub-digests (key, `colon`, value in one fresh temporary
container). -/
def seq2UFold {σ : Type} (acc : Acc σ) (opts : Options) (kt vt : Ty) :
    List (Val × Val) → Option (Encoder × Encoder) → CState → Nat →
      (Except String Nat) × CState
  | [], _, st, r => (.ok r, st)
  | (k, v) :: rest, okv, st, r =>
    if opts.ignoreZero && isZeroVal v then
      seq2UFold acc opts kt vt rest okv st r
    else
      match okv with
      | some (khf, vhf) =>
        seq2UFold acc opts kt vt rest (some (khf, vhf)) st
          (Nat.xor r (pairSub acc (encodeF acc opts khf) (encodeF acc opts vhf) k v))
      | none =>
        match compile opts st kt with
        | (.error msg, st2) => (.error msg, st2)
        | (.ok khf, st2) =>
          match compile opts st2 vt with
          | (.error msg, st3) => (.error msg, st3)
          | (.ok vhf, st3) =>
            seq2UFold acc opts kt vt rest (some (khf, vhf)) st3
              (Nat.xor r (pairSub acc (encodeF acc opts khf) (encodeF acc opts vhf) k v))

/-- The unordered closure of `hashSeq2` (checked out for `CanSeq2` types
under `UnorderedSeq2`): `startSet`, the lazily compiled pair fold, the
8-byte fold value — omitted when zero — and `endSet`.  `none` models an
invalid iterator value. -/
def hashSeq2U {σ : Type} (acc : Acc σ) (opts : Options) (kt vt : Ty)
    (prs : Option (List (Val × Val))) (st : CState) (s : σ) :
    (Except String σ) × CState :=
  match prs with
  | none => (.ok s, st)
  | some pairs =>
    let s1 := acc.write1 s startSetB
    match seq2UFold acc opts kt vt pairs none st 0 with
    | (.error msg, st2) => (.error msg, st2)
    | (.ok r, st2) =>
      if r = 0 then (.ok (acc.write1 s1 endSetB), st2)
      else (.ok (acc.write1 (writeB acc s1 (uint64LE r)) endSetB), st2)

/-- Concatenation of struct plans. -/
def planApp : Plan → Plan → Plan
  | .pnil, q => q
  | .pcons n i hf r, q => .pcons n i hf (planApp r q)

/-- The 64-bit FNV-1a hash of a byte string, with explicit reduction
modulo `2 ^ 64` at each step (`hash/fnv`, `fnv.New64a`). -/
def fnv1a (bs : Bytes) : Nat :=
  bs.foldl (fun a b => (Nat.xor a (b % 256)) * 1099511628211 % 2 ^ 64)
    14695981039346656037

/-- A concrete executable accumulator: the state is the list of bytes
written so far, and `sum64` is FNV-1a over that stream.  Any accumulator
satisfies the generic theorems; this one makes witnesses computable. -/
def listAcc : Acc (List Nat) where
  init := []
  write1 := fun s b => s ++ [b % 256]
  sum64 := fnv1a

/-! Supporting lemmas about the compiler cache. -/

/-- A freshly checked-out encoder is found at the head of the cache. -/
theorem cacheFind_head (t : Ty) (e : Encoder) (c : List (Ty × Encoder)) :
    cacheFind ((t, e) :: c) t = some e := by
  simp [cacheFind]

/-- Every successful `compileUnder` stores its result in the cache under
the named type `t` before returning it. -/
theorem compileUnder_cache (u : Ty) : ∀ (opts : Options) (s : CState) (t : Ty)
    (e : Encoder) (s' : CState), compileUnder opts s t u = (.ok e, s') →
    cacheFind s'.cache t = some e := by
  induction u with
  | tcaps hw bin tx js strg base ih =>
    intro opts s t e s' h
    simp only [compileUnder] at h
    exact ih opts s t e s' h
  | tptr elem ih =>
    intro opts s t e s' h
    simp only [compileUnder] at h
    rcases hc : compile opts s elem with ⟨r, s2⟩
    rw [hc] at h
    cases r with
    | error msg => simp at h
    | ok ehf =>
      simp only [checkout, Prod.mk.injEq, Except.ok.injEq] at h
      obtain ⟨he, hs⟩ := h
      subst he
      subst hs
      exact cacheFind_head ..
  | tarray n elem ih =>
    intro opts s t e s' h
    simp only [compileUnder] at h
    rcases hc : compile opts s elem with ⟨r, s2⟩
    rw [hc] at h
    cases r with
    | error msg => simp at h
    | ok vhf =>
      simp only [checkout, Prod.mk.injEq, Except.ok.injEq] at h
      obtain ⟨he, hs⟩ := h
      subst he
      subst hs
      exact cacheFind_head ..
  | tslice elem ih =>
    intro opts s t e s' h
    simp only [compileUnder] at h
    rcases hc : compile opts s elem with ⟨r, s2⟩
    rw [hc] at h
    cases r with
    | error msg => simp at h
    | ok vhf =>
      simp only [checkout, Prod.mk.injEq, Except.ok.injEq] at h
      obtain ⟨he, hs⟩ := h
      subst he
      subst hs
      exact cacheFind_head ..
  | tmap kt vt ihk ihv =>
    intro opts s t e s' h
    simp only [compileUnder] at h
    rcases hck : compile opts s kt with ⟨rk, s2⟩
    rw [hck] at h
    cases rk with
    | error msg => simp at h
    | ok khf =>
      simp only [] at h
      rcases hcv : compile opts s2 vt with ⟨rv, s3⟩
      rw [hcv] at h
      cases rv with
      | error msg => simp at h
      | ok vhf =>
        simp only [checkout, Prod.mk.injEq, Except.ok.injEq] at h
        obtain ⟨he, hs⟩ := h
        subst he
        subst hs
        exact cacheFind_head ..
  | tstruct flds ih =>
    intro opts s t e s' h
    simp only [compileUnder] at h
    rcases hc : compileFields opts s flds 0 with ⟨r, s2⟩
    rw [hc] at h
    cases r with
    | error msg => simp at h
    | ok plan =>
      simp only [checkout, Prod.mk.injEq, Except.ok.injEq] at h
      obtain ⟨he, hs⟩ := h
      subst he
      subst hs
      exact cacheFind_head ..
  | tfcons nm tag fty rest ih1 ih2 =>
    intro opts s t e s' h
    simp only [compileUnder] at h
    simp at h
  | _ =>
    intro opts s t e s' h
    simp only [compileUnder] at h
    first
    | (simp only [checkout, Prod.mk.injEq, Except.ok.injEq] at h
       obtain ⟨he, hs⟩ := h
       subst he
       subst hs
       exact cacheFind_head ..)
    | simp at h

/-- Every successful `compile` either finds the encoder already cached, or
takes the type-level cycle guard's no-op path (state unchanged), or stores
the freshly compiled encoder in the cache under the compiled type. -/
theorem compile_cache_of_ok (t : Ty) (opts : Options) (s : CState)
    (e : Encoder) (s' : CState) (h : compile opts s t = (.ok e, s')) :
    cacheFind s'.cache t = some e ∨
      (s' = s ∧ cacheFind s.cache t = some e) ∨
      (s' = s ∧ e = .noop ∧ cacheFind s.cache t = none ∧ t ∈ s.visited) := by
  rw [compile] at h
  rcases hf : cacheFind s.cache t with _ | e0 <;> rw [hf] at h <;>
    simp only [] at h
  case some =>
    simp only [Prod.mk.injEq, Except.ok.injEq] at h
    obtain ⟨he, hs⟩ := h
    subst he
    subst hs
    exact Or.inr (Or.inl ⟨rfl, rfl⟩)
  case none =>
    by_cases hm : t ∈ s.visited
    · rw [if_pos hm] at h
      simp only [Prod.mk.injEq, Except.ok.injEq] at h
      obtain ⟨he, hs⟩ := h
      subst hs
      exact Or.inr (Or.inr ⟨rfl, he.symm, rfl, hm⟩)
    · rw [if_neg hm] at h
      left
      cases t with
      | tcaps hw bin tx js strg base =>
        try simp only [] at h
        by_cases h1 : hw = true
        · rw [if_pos h1] at h
          simp only [checkout, Prod.mk.injEq, Except.ok.injEq] at h
          obtain ⟨he, hs⟩ := h
          subst he
          subst hs
          exact cacheFind_head ..
        · rw [if_neg h1] at h
          by_cases h2 : bin = true
          · rw [if_pos h2] at h
            simp only [checkout, Prod.mk.injEq, Except.ok.injEq] at h
            obtain ⟨he, hs⟩ := h
            subst he
            subst hs
            exact cacheFind_head ..
          · rw [if_neg h2] at h
            by_cases h3 : (opts.text && tx) = true
            · rw [if_pos h3] at h
              simp only [checkout, Prod.mk.injEq, Except.ok.injEq] at h
              obtain ⟨he, hs⟩ := h
              subst he
              subst hs
              exact cacheFind_head ..
            · rw [if_neg h3] at h
              by_cases h4 : (opts.json && js) = true
              · rw [if_pos h4] at h
                simp only [checkout, Prod.mk.injEq, Except.ok.injEq] at h
                obtain ⟨he, hs⟩ := h
                subst he
                subst hs
                exact cacheFind_head ..
              · rw [if_neg h4] at h
                by_cases h5 : (opts.string && strg) = true
                · rw [if_pos h5] at h
                  simp only [checkout, Prod.mk.injEq, Except.ok.injEq] at h
                  obtain ⟨he, hs⟩ := h
                  subst he
                  subst hs
                  exact cacheFind_head ..
                · rw [if_neg h5] at h
                  exact compileUnder_cache base opts _ _ e s' h
      | tptr elem =>
        try simp only [] at h
        rcases hc : compile opts ⟨s.cache, Ty.tptr elem :: s.visited⟩ elem with ⟨r, s2⟩
        rw [hc] at h
        cases r with
        | error msg => simp at h
        | ok ehf =>
          simp only [checkout, Prod.mk.injEq, Except.ok.injEq] at h
          obtain ⟨he, hs⟩ := h
          subst he
          subst hs
          exact cacheFind_head ..
      | tarray n elem =>
        try simp only [] at h
        rcases hc : compile opts ⟨s.cache, Ty.tarray n elem :: s.visited⟩ elem with ⟨r, s2⟩
        rw [hc] at h
        cases r with
        | error msg => simp at h
        | ok vhf =>
          simp only [checkout, Prod.mk.injEq, Except.ok.injEq] at h
          obtain ⟨he, hs⟩ := h
          subst he
          subst hs
          exact cacheFind_head ..
      | tslice elem =>
        try simp only [] at h
        rcases hc : compile opts ⟨s.cache, Ty.tslice elem :: s.visited⟩ elem with ⟨r, s2⟩
        rw [hc] at h
        cases r with
        | error msg => simp at h
        | ok vhf =>
          simp only [checkout, Prod.mk.injEq, Except.ok.injEq] at h
          obtain ⟨he, hs⟩ := h
          subst he
          subst hs
          exact cacheFind_head ..
      | tmap kt vt =>
        try simp only [] at h
        rcases hck : compile opts ⟨s.cache, Ty.tmap kt vt :: s.visited⟩ kt with ⟨rk, s2⟩
        rw [hck] at h
        cases rk with
        | error msg => simp at h
        | ok khf =>
          simp only [] at h
          rcases hcv : compile opts s2 vt with ⟨rv, s3⟩
          rw [hcv] at h
          cases rv with
          | error msg => simp at h
          | ok vhf =>
            simp only [checkout, Prod.mk.injEq, Except.ok.injEq] at h
            obtain ⟨he, hs⟩ := h
            subst he
            subst hs
            exact cacheFind_head ..
      | tstruct flds =>
        try simp only [] at h
        rcases hc : compileFields opts ⟨s.cache, Ty.tstruct flds :: s.visited⟩ flds 0 with ⟨r, s2⟩
        rw [hc] at h
        cases r with
        | error msg => simp at h
        | ok plan =>
          simp only [checkout, Prod.mk.injEq, Except.ok.injEq] at h
          obtain ⟨he, hs⟩ := h
          subst he
          subst hs
          exact cacheFind_head ..
      | tfcons nm tag fty rest => simp at h
      | _ =>
        first
        | (simp only [checkout, Prod.mk.injEq, Except.ok.injEq] at h
           obtain ⟨he, hs⟩ := h
           subst he
           subst hs
           exact cacheFind_head ..)
        | simp at h

/-- Compilation is stable: a second `compile` of the same type from the
state left by a successful first one returns the same encoder and leaves
the state untouched. -/
theorem compile_stable (opts : Options) (s : CState) (t : Ty) (e : Encoder)
    (s' : CState) (h : compile opts s t = (.ok e, s')) :
    compile opts s' t = (.ok e, s') := by
  rcases compile_cache_of_ok t opts s e s' h with h1 | ⟨hs, h2⟩ | ⟨hs, he, h3, hm⟩
  · rw [compile, h1]
  · subst hs
    rw [compile, h2]
  · subst hs
    subst he
    rw [compile, h3, if_pos hm]

/-- Right commutativity of `Nat.xor`, used for fold reordering. -/
theorem natXor_right_comm (r a b : Nat) :
    Nat.xor (Nat.xor r a) b = Nat.xor (Nat.xor r b) a := by
  have h1 : Nat.xor (Nat.xor r a) b = r ^^^ a ^^^ b := rfl
  have h2 : Nat.xor (Nat.xor r b) a = r ^^^ b ^^^ a := rfl
  rw [h1, h2, Nat.xor_assoc, Nat.xor_assoc, Nat.xor_comm a b]

/-- The XOR fold over map entries is invariant under permutation of the
entry list (XOR is commutative and associative, skipping is pointwise). -/
theorem mapFoldWith_perm {σ : Type} (acc : Acc σ) (opts : Options)
    (fk fv : Val → List Nat → σ → σ × List Nat) {l1 l2 : List (Val × Val)}
    (hp : l1.Perm l2) :
    ∀ r, mapFoldWith acc opts fk fv l1 r = mapFoldWith acc opts fk fv l2 r := by
  induction hp with
  | nil => intro r; rfl
  | cons x hp ih =>
    intro r
    rcases x with ⟨k, v⟩
    simp only [mapFoldWith]
    by_cases hz : (opts.ignoreZero && isZeroVal v) = true
    · rw [if_pos hz, if_pos hz]
      exact ih r
    · rw [if_neg hz, if_neg hz]
      exact ih _
  | swap x y l =>
    intro r
    rcases x with ⟨kx, vx⟩
    rcases y with ⟨ky, vy⟩
    simp only [mapFoldWith]
    cases hx : (opts.ignoreZero && isZeroVal vx) <;>
      cases hy : (opts.ignoreZero && isZeroVal vy) <;>
        simp [hx, hy]
    generalize pairSub acc fk fv kx vx = a
    generalize pairSub acc fk fv ky vy = b
    rw [natXor_right_comm r b a]
  | trans hp1 hp2 ih1 ih2 =>
    intro r
    exact (ih1 r).trans (ih2 r)

/-- From a fresh Hasher, a successful compile of a map type yields a map
encoder. -/
theorem compile_tmap_shape (opts : Options) (kt vt : Ty) (e : Encoder)
    (s' : CState) (h : compile opts newState (.tmap kt vt) = (.ok e, s')) :
    ∃ khf vhf, e = .emap khf vhf := by
  rw [compile] at h
  try simp only [newState, cacheFind] at h
  try rw [if_neg (List.not_mem_nil _)] at h
  try simp only [] at h
  rcases hck : compile opts ⟨[], [Ty.tmap kt vt]⟩ kt with ⟨rk, s2⟩
  rw [hck] at h
  cases rk with
  | error msg => simp at h
  | ok khf =>
    simp only [] at h
    rcases hcv : compile opts s2 vt with ⟨rv, s3⟩
    rw [hcv] at h
    cases rv with
    | error msg => simp at h
    | ok vhf =>
      simp only [checkout, Prod.mk.injEq, Except.ok.injEq] at h
      exact ⟨khf, vhf, h.1.symm⟩

/-! The claims. -/

/-- C1: Repeatability.  For every value `Hash` digests successfully, a
second independent `Hash` call on the same Hasher (the state left by the
first call) returns the same digest, no error, and the same state: the
first call compiles and caches the encoder, later calls hit the cache. -/
theorem c1_repeatability (σ : Type) (acc : Acc σ) (opts : Options)
    (st : CState) (t : Ty) (v : Val) (d : Nat) (st' : CState)
    (h : Hash acc opts st (some (t, v)) = (d, none, st')) :
    Hash acc opts st' (some (t, v)) = (d, none, st') := by
  rw [Hash] at h
  simp only [] at h
  rcases hc : compile opts st t with ⟨r, st2⟩
  rw [hc] at h
  cases r with
  | error msg => simp at h
  | ok enc =>
    simp only [Prod.mk.injEq] at h
    obtain ⟨hd, _, hst⟩ := h
    subst hst
    rw [Hash]
    simp only []
    rw [compile_stable opts st t enc st2 hc]
    simp only []
    rw [hd]

/-- Witness for C1: hashing the integer 5 twice on the same Hasher. -/
theorem c1_repeatability_witness :
    Hash listAcc opts0 ⟨[(Ty.tint, Encoder.eint)], [Ty.tint]⟩
      (some (Ty.tint, Val.vint 5)) =
      (1000385178204227360, none, ⟨[(Ty.tint, Encoder.eint)], [Ty.tint]⟩) :=
  c1_repeatability (List Nat) listAcc opts0 newState Ty.tint (Val.vint 5)
    1000385178204227360 ⟨[(Ty.tint, Encoder.eint)], [Ty.tint]⟩ (by rfl)

/-- C2: Map order independence.  Two maps of the same type whose entry
lists are permutations of each other produce the same `Hash` result on a
fresh Hasher, for every accumulator and every options record: each entry
is hashed in isolation and the sub-digests are XOR-folded. -/
theorem c2_map_order (σ : Type) (acc : Acc σ) (opts : Options) (kt vt : Ty)
    (l1 l2 : List (Val × Val)) (hp : l1.Perm l2) :
    Hash acc opts newState (some (.tmap kt vt, .vmap (some l1))) =
      Hash acc opts newState (some (.tmap kt vt, .vmap (some l2))) := by
  rw [Hash, Hash]
  simp only []
  rcases hc : compile opts newState (.tmap kt vt) with ⟨r, st2⟩
  cases r with
  | error msg => rfl
  | ok enc =>
    obtain ⟨khf, vhf, he⟩ := compile_tmap_shape opts kt vt enc st2 hc
    subst he
    simp only [encodeF, stripM, Option.getD]
    rw [mapFoldWith_perm acc opts (encodeF acc opts khf) (encodeF acc opts vhf) hp 0]

/-- Witness for C2: the same two-entry map in both insertion orders. -/
theorem c2_map_order_witness :
    Hash listAcc opts0 newState (some (.tmap .tint .tint,
      .vmap (some [(.vint 1, .vint 10), (.vint 2, .vint 20)]))) =
      Hash listAcc opts0 newState (some (.tmap .tint .tint,
      .vmap (some [(.vint 2, .vint 20), (.vint 1, .vint 10)]))) :=
  c2_map_order (List Nat) listAcc opts0 .tint .tint _ _ (List.Perm.swap _ _ _)

/-- C3: The unsupported-type error does not recur.  The first `Hash` call
on a `func()`-kind value fails with the unsupported-type error naming the
type and leaves the type in the Hasher's visited list; the second call on
the very same Hasher then takes the type-level no-op path and succeeds,
returning the digest of the empty write instead of the error. -/
theorem c3_error_recurrence :
    Hash listAcc opts0 newState (some (.tfunc, .vfunc)) =
      (sum64M listAcc listAcc.init, some (unsupportedMsg .tfunc),
        ⟨[], [.tfunc]⟩) ∧
    Hash listAcc opts0 ⟨[], [.tfunc]⟩ (some (.tfunc, .vfunc)) =
      (sum64M listAcc listAcc.init, none, ⟨[], [.tfunc]⟩) :=
  ⟨rfl, rfl⟩

/-- C4 counterexample: with every delegate flag disabled, a type
implementing only `encoding.BinaryMarshaler` still compiles to the binary
delegate encoder, its digest is the digest of its `MarshalBinary` output,
and that digest differs from the structural digest of the underlying
value. -/
theorem c4_binary_counterexample :
    (compile opts0 newState (.tcaps false true false false false .tint)).1 =
      .ok .ebinary ∧
    (Hash listAcc opts0 newState (some (.tcaps false true false false false .tint,
      .vmarshaled [9] (.vint 3)))).1 =
      sum64M listAcc (writeB listAcc listAcc.init [9]) ∧
    (Hash listAcc opts0 newState (some (.tcaps false true false false false .tint,
      .vmarshaled [9] (.vint 3)))).1 ≠
      (Hash listAcc opts0 newState (some (.tint, .vint 3))).1 :=
  ⟨rfl, rfl, by decide⟩

/-- C4 (amended): the text/JSON/string delegates are used only when their
Options flag is enabled, but the binary-marshal capability is used
unconditionally, with precedence just below the custom `HashWriter`
capability: a type implementing `HashWriter` compiles to the custom
encoder under every options record even when it also implements
`BinaryMarshaler` and all flag-guarded interfaces; a binary-capable type
without `HashWriter` compiles to the binary delegate under every options
record even when the flag-guarded interfaces are all implemented; and a
type implementing only the text, JSON or string capability compiles to
that delegate exactly when the corresponding flag is enabled, otherwise
falling through to its structural kind. -/
theorem c4_delegate_flags (opts : Options) (base : Ty) :
    ((compile opts newState (.tcaps true true true true true base)).1 =
      .ok .ehashWriter) ∧
    ((compile opts newState (.tcaps false true true true true base)).1 =
      .ok .ebinary) ∧
    (opts.text = true →
      (compile opts newState (.tcaps false false true false false base)).1 =
        .ok .etext) ∧
    (opts.text = false →
      (compile opts newState (.tcaps false false true false false .tint)).1 =
        .ok .eint) ∧
    (opts.json = true →
      (compile opts newState (.tcaps false false false true false base)).1 =
        .ok .ejson) ∧
    (opts.json = false →
      (compile opts newState (.tcaps false false false true false .tint)).1 =
        .ok .eint) ∧
    (opts.string = true →
      (compile opts newState (.tcaps false false false false true base)).1 =
        .ok .estringer) ∧
    (opts.string = false →
      (compile opts newState (.tcaps false false false false true .tint)).1 =
        .ok .eint) := by
  refine ⟨?_, ?_, ?_, ?_, ?_, ?_, ?_, ?_⟩
  · rw [compile]
    simp [cacheFind, newState, checkout]
  · rw [compile]
    simp [cacheFind, newState, checkout]
  · intro ht
    rw [compile]
    simp [cacheFind, newState, checkout, ht]
  · intro ht
    rw [compile]
    simp only [newState, cacheFind]
    rw [if_neg (List.not_mem_nil _)]
    simp [ht, compileUnder, compile, cacheFind, checkout]
  · intro hj
    rw [compile]
    simp [cacheFind, newState, checkout, hj]
  · intro hj
    rw [compile]
    simp only [newState, cacheFind]
    rw [if_neg (List.not_mem_nil _)]
    simp [hj, compileUnder, compile, cacheFind, checkout]
  · intro hg
    rw [compile]
    simp [cacheFind, newState, checkout, hg]
  · intro hg
    rw [compile]
    simp only [newState, cacheFind]
    rw [if_neg (List.not_mem_nil _)]
    simp [hg, compileUnder, compile, cacheFind, checkout]

/-- Witness for C4: each flag-guarded delegate with its flag on and the
structural fallthrough with it off. -/
theorem c4_delegate_flags_witness :
    ((compile { text := true } newState
      (.tcaps false false true false false .tint)).1 = .ok .etext) ∧
    ((compile opts0 newState
      (.tcaps false false true false false .tint)).1 = .ok .eint) ∧
    ((compile { json := true } newState
      (.tcaps false false false true false .tint)).1 = .ok .ejson) ∧
    ((compile opts0 newState
      (.tcaps false false false true false .tint)).1 = .ok .eint) ∧
    ((compile { string := true } newState
      (.tcaps false false false false true .tint)).1 = .ok .estringer) ∧
    ((compile opts0 newState
      (.tcaps false false false false true .tint)).1 = .ok .eint) :=
  ⟨(c4_delegate_flags { text := true } .tint).2.2.1 rfl,
   (c4_delegate_flags opts0 .tint).2.2.2.1 rfl,
   (c4_delegate_flags { json := true } .tint).2.2.2.2.1 rfl,
   (c4_delegate_flags opts0 .tint).2.2.2.2.2.1 rfl,
   (c4_delegate_flags { string := true } .tint).2.2.2.2.2.2.1 rfl,
   (c4_delegate_flags opts0 .tint).2.2.2.2.2.2.2 rfl⟩

/-- C5 counterexample: a struct field carrying the unrecognized tag token
`bogus` does not make the first `Hash` call fail — compilation succeeds,
no configuration error is raised, and the digest is returned. -/
theorem c5_tag_counterexample :
    (Hash listAcc opts0 newState (some (.tstruct (.tfcons "F" "bogus" .tint .tfnil),
      .vstruct [.vint 7]))).2.1 = none :=
  rfl

/-- C5 (amended): struct tags are never a compile error in this version.
The field loop recognizes only the exact tag `-` (field exclusion); a
field with any other tag, recognized or not, is compiled exactly as if it
were untagged. -/
theorem c5_unknown_tags_ignored (opts : Options) (s : CState) (nm tag : String)
    (fty rest : Ty) (i : Nat) (h : tag ≠ "-") :
    compileFields opts s (.tfcons nm tag fty rest) i =
      compileFields opts s (.tfcons nm "" fty rest) i := by
  rw [compileFields, compileFields]
  rw [if_neg h, if_neg (by decide : ¬("" = "-"))]

/-- Witness for C5: the tag `bogus` compiles like no tag at all. -/
theorem c5_unknown_tags_ignored_witness :
    compileFields opts0 newState (.tfcons "F" "bogus" .tint .tfnil) 0 =
      compileFields opts0 newState (.tfcons "F" "" .tint .tfnil) 0 :=
  c5_unknown_tags_ignored opts0 newState "F" "bogus" .tint .tfnil 0 (by decide)

/-- C6 counterexample: two struct values that differ only in a
non-exported (lowercase) field produce different digests — the field does
contribute to the hash. -/
theorem c6_unexported_counterexample :
    (Hash listAcc opts0 newState (some (.tstruct (.tfcons "x" "" .tint .tfnil),
      .vstruct [.vint 1]))).1 ≠
      (Hash listAcc opts0 newState (some (.tstruct (.tfcons "x" "" .tint .tfnil),
        .vstruct [.vint 2]))).1 := by
  decide

/-- C6 (amended): field selection never consults exportedness.  For every
field name whatsoever (exported or not) and every options record, the
compiled plan of a one-field struct contains that field, keyed by its name
bytes, and compilation succeeds. -/
theorem c6_all_fields_contribute (opts : Options) (nm : String) :
    (compile opts newState (.tstruct (.tfcons nm "" .tint .tfnil))).1 =
      .ok (if opts.unorderedStruct then
            .estructU (.pcons (strBytes nm) 0 .eint .pnil)
          else .estructO (.pcons (strBytes nm) 0 .eint .pnil)) := by
  rw [compile]
  simp only [newState, cacheFind]
  rw [if_neg (List.not_mem_nil _)]
  simp only [compileFields]
  rw [if_neg (by decide : ¬(("" : String) = "-"))]
  rw [compile]
  simp only [cacheFind]
  rw [if_neg (by simp : Ty.tint ∉ [Ty.tstruct (.tfcons nm "" .tint .tfnil)])]
  simp [checkout, compileFields]

/-- C7 counterexample: the ordered sequence of the two strings `a`, `b`
and the ordered sequence of the single string `a<0x03>b` (their
concatenation around the separator byte) produce the same `Hash` result:
the byte streams coincide. -/
theorem c7_framing_counterexample :
    Hash listAcc opts0 newState (some (.tslice .tstr,
      .vslice (some [.vstr [97], .vstr [98]]))) =
      Hash listAcc opts0 newState (some (.tslice .tstr,
        .vslice (some [.vstr [97, 3, 98]]))) :=
  rfl

/-- C7 (amended): the framing bytes are eight fixed pairwise-distinct
reserved values `0x00`–`0x07`, but they are not escaped out of scalar
encodings: a string value is written as exactly its raw bytes, so a string
containing a separator byte can make two distinct ordered sequences
produce the identical byte stream. -/
theorem c7_markers :
    ([byteFalseB, byteTrueB, colonB, commaB, startSetB, endSetB,
      startListB, endListB].Pairwise (fun a b => a ≠ b)) ∧
    (∀ (σ : Type) (acc : Acc σ) (opts : Options) (bs : Bytes)
      (vis : List Nat) (s : σ),
      encodeF acc opts .estr (.vstr bs) vis s = (writeB acc s bs, vis)) :=
  ⟨by decide, fun σ acc opts bs vis s => rfl⟩

/-- With `IgnoreZero` enabled, a plan entry whose field value is zero is
skipped by the ordered struct walk without any output. -/
theorem walkO_skip_zero {σ : Type} (acc : Acc σ) (opts : Options) (nm : Bytes)
    (i : Nat) (hf : Encoder) (v zv : Val) (hIZ : opts.ignoreZero = true)
    (hFA : fieldAt v i = some zv) (hz : isZeroVal zv = true) :
    ∀ (pre suf : Plan) (first : Bool) (vis : List Nat) (s : σ),
      walkO acc opts (planApp pre (.pcons nm i hf suf)) v first vis s =
        walkO acc opts (planApp pre suf) v first vis s
  | .pnil, suf, first, vis, s => by
    simp only [planApp, walkO]
    rw [hFA]
    simp only []
    rw [if_pos (by rw [hIZ, hz]; rfl)]
  | .pcons n2 i2 hf2 r, suf, first, vis, s => by
    simp only [planApp, walkO]
    rcases hfa : fieldAt v i2 with _ | fv
    · exact walkO_skip_zero acc opts nm i hf v zv hIZ hFA hz r suf first vis s
    · simp only []
      by_cases hsk : (opts.ignoreZero && isZeroVal fv) = true
      · rw [if_pos hsk, if_pos hsk]
        exact walkO_skip_zero acc opts nm i hf v zv hIZ hFA hz r suf first vis s
      · rw [if_neg hsk, if_neg hsk]
        exact walkO_skip_zero acc opts nm i hf v zv hIZ hFA hz r suf false _ _

/-- C8: Zero-skip idempotence.  With `IgnoreZero` enabled, a plan entry
whose field value is zero contributes nothing at all to the ordered struct
walk — no name, no separator — so the walk with that entry equals the walk
with the entry entirely absent; consequently the digest of a struct with a
zero field equals the digest of the same value of the struct type without
that field (shown concretely in the second conjunct). -/
theorem c8_zero_skip :
    (∀ (σ : Type) (acc : Acc σ) (opts : Options) (pre suf : Plan) (nm : Bytes)
        (i : Nat) (hf : Encoder) (v zv : Val),
      opts.ignoreZero = true → fieldAt v i = some zv → isZeroVal zv = true →
      ∀ (first : Bool) (vis : List Nat) (s : σ),
        walkO acc opts (planApp pre (.pcons nm i hf suf)) v first vis s =
          walkO acc opts (planApp pre suf) v first vis s) ∧
    ((Hash listAcc { ignoreZero := true } newState
        (some (.tstruct (.tfcons "A" "" .tint (.tfcons "B" "" .tint .tfnil)),
          .vstruct [.vint 5, .vint 0]))).1 =
      (Hash listAcc { ignoreZero := true } newState
        (some (.tstruct (.tfcons "A" "" .tint .tfnil),
          .vstruct [.vint 5]))).1) := by
  constructor
  · intro σ acc opts pre suf nm i hf v zv hIZ hFA hz
    exact walkO_skip_zero acc opts nm i hf v zv hIZ hFA hz pre suf
  · decide

/-- Witness for C8: skipping the zero-valued second field of a two-field
plan equals walking the plan without it. -/
theorem c8_zero_skip_witness :
    walkO listAcc { ignoreZero := true }
      (planApp .pnil (.pcons (strBytes "B") 1 .eint .pnil))
      (.vstruct [.vint 5, .vint 0]) true [] [] =
      walkO listAcc { ignoreZero := true } (planApp .pnil .pnil)
        (.vstruct [.vint 5, .vint 0]) true [] [] :=
  c8_zero_skip.1 (List Nat) listAcc { ignoreZero := true } .pnil .pnil
    (strBytes "B") 1 .eint (.vstruct [.vint 5, .vint 0]) (.vint 0)
    rfl rfl rfl true [] []

/-- C9: Cycle safety.  The pointer encoder traverses each address at most
once per top-level call: an unvisited address is appended to the per-call
visited list before recursing into the pointee, and a revisited address
contributes nothing; a type already being compiled resolves to the no-op
encoder, which writes nothing for any value; consequently the encoder the
compiler produces for the self-referential `node` type — whose `Next`
plan entry is that no-op — terminates on the two-node cyclic test value,
writing a byte stream (and hence digest) that is independent of the
cyclic tail behind `Next` and identical on every call. -/
theorem c9_cycle_safety :
    (∀ (σ : Type) (acc : Acc σ) (opts : Options) (ty : Ty) (e : Encoder)
        (addr : Nat) (pv : Val) (vis : List Nat) (s : σ), addr ∈ vis →
      encodeF acc opts (.eptr ty e) (.vptr addr (some pv)) vis s = (s, vis)) ∧
    (∀ (σ : Type) (acc : Acc σ) (opts : Options) (ty : Ty) (e : Encoder)
        (addr : Nat) (pv : Val) (vis : List Nat) (s : σ), addr ∉ vis →
      encodeF acc opts (.eptr ty e) (.vptr addr (some pv)) vis s =
        encodeF acc opts e pv (addr :: vis) s) ∧
    (∀ (opts : Options) (s : CState) (t : Ty),
      cacheFind s.cache t = none → t ∈ s.visited →
        compile opts s t = (.ok .noop, s)) ∧
    (∀ (σ : Type) (acc : Acc σ) (opts : Options) (w : Val) (vis : List Nat)
        (s : σ), encodeF acc opts .noop w vis s = (s, vis)) ∧
    (∀ (elemTy : Ty) (w : Val),
      encodeF listAcc opts0 (.eptr elemTy (.estructO nodePlan))
          (.vptr 0 (some (.vstruct [.vint 1, w]))) [] [] =
        ([6, 86, 97, 108, 117, 101, 2, 1, 0, 0, 0, 0, 0, 0, 0, 3,
          78, 101, 120, 116, 2, 7], [0])) := by
  refine ⟨?_, ?_, ?_, ?_, ?_⟩
  · intro σ acc opts ty e addr pv vis s h
    simp only [encodeF]
    rw [if_pos h]
  · intro σ acc opts ty e addr pv vis s h
    simp only [encodeF]
    rw [if_neg h]
  · intro opts s t h1 h2
    rw [compile, h1, if_pos h2]
  · intro σ acc opts w vis s
    rfl
  · intro elemTy w
    rfl

/-- Witness for C9: the revisit break at a concrete visited address and
the no-op compile of a concrete in-flight type. -/
theorem c9_cycle_safety_witness :
    encodeF listAcc opts0 (.eptr .tint .eint) (.vptr 0 (some (.vint 7)))
      [0] [] = ([], [0]) ∧
    compile opts0 ⟨[], [Ty.tfunc]⟩ Ty.tfunc = (.ok .noop, ⟨[], [Ty.tfunc]⟩) :=
  ⟨c9_cycle_safety.1 (List Nat) listAcc opts0 .tint .eint 0 (.vint 7) [0] []
    (by decide),
   c9_cycle_safety.2.2.1 opts0 ⟨[], [Ty.tfunc]⟩ Ty.tfunc rfl (by decide)⟩

/-- C10: Fold-to-zero collapse.  In every folded encoding — map, unordered
slice/array, unordered struct, and the unordered sequence closures of
`hashSeq` and `hashSeq2` — when the XOR of the per-element sub-digests is
zero only the `startSet` and `endSet` markers are written and the 8-byte
fold value is omitted, so a non-empty collection whose sub-digests cancel
produces exactly the accumulator output of the empty collection of the
same type. -/
theorem c10_fold_zero :
    (∀ (σ : Type) (acc : Acc σ) (opts : Options) (khf vhf : Encoder)
        (l : List (Val × Val)) (vis : List Nat) (s : σ),
      mapFoldWith acc opts (encodeF acc opts khf) (encodeF acc opts vhf) l 0 = 0 →
      encodeF acc opts (.emap khf vhf) (.vmap (some l)) vis s =
        (acc.write1 (acc.write1 s startSetB) endSetB, vis) ∧
      encodeF acc opts (.emap khf vhf) (.vmap (some l)) vis s =
        encodeF acc opts (.emap khf vhf) (.vmap (some [])) vis s) ∧
    (∀ (σ : Type) (acc : Acc σ) (opts : Options) (e : Encoder)
        (es : List Val) (vis : List Nat) (s : σ),
      setFoldWith acc opts (encodeF acc opts e) es 0 = 0 →
      encodeF acc opts (.eset e) (.vslice (some es)) vis s =
        (acc.write1 (acc.write1 s startSetB) endSetB, vis) ∧
      encodeF acc opts (.eset e) (.vslice (some es)) vis s =
        encodeF acc opts (.eset e) (.vslice (some [])) vis s) ∧
    (∀ (σ : Type) (acc : Acc σ) (opts : Options) (plan : Plan)
        (fs : List Val) (vis : List Nat) (s : σ),
      walkUFold acc opts plan (.vstruct fs) 0 = 0 →
      encodeF acc opts (.estructU plan) (.vstruct fs) vis s =
        (acc.write1 (acc.write1 s startSetB) endSetB, vis)) ∧
    (∀ (σ : Type) (acc : Acc σ) (opts : Options) (elemTy : Ty)
        (elems : List Val) (st st2 : CState) (s : σ),
      seqUFold acc opts elemTy elems none st 0 = (.ok 0, st2) →
      hashSeqU acc opts elemTy (some elems) st s =
        (.ok (acc.write1 (acc.write1 s startSetB) endSetB), st2) ∧
      (hashSeqU acc opts elemTy (some elems) st s).1 =
        (hashSeqU acc opts elemTy (some []) st s).1) ∧
    (∀ (σ : Type) (acc : Acc σ) (opts : Options) (kt vt : Ty)
        (prs : List (Val × Val)) (st st2 : CState) (s : σ),
      seq2UFold acc opts kt vt prs none st 0 = (.ok 0, st2) →
      hashSeq2U acc opts kt vt (some prs) st s =
        (.ok (acc.write1 (acc.write1 s startSetB) endSetB), st2) ∧
      (hashSeq2U acc opts kt vt (some prs) st s).1 =
        (hashSeq2U acc opts kt vt (some []) st s).1) := by
  refine ⟨?_, ?_, ?_, ?_, ?_⟩
  · intro σ acc opts khf vhf l vis s h
    constructor
    · simp only [encodeF, stripM, Option.getD]
      rw [h]
      simp
    · simp only [encodeF, stripM, Option.getD]
      rw [h]
      simp [mapFoldWith]
  · intro σ acc opts e es vis s h
    have hz : (opts.ignoreZero && isZeroVal (Val.vslice (some es))) = false := by
      simp [isZeroVal]
    constructor
    · simp only [encodeF, hz, Bool.false_eq_true, if_false, elemsOpt, stripM,
        Option.getD]
      rw [h]
      simp
    · simp only [encodeF, hz, Bool.false_eq_true, if_false, elemsOpt, stripM,
        Option.getD]
      rw [h]
      simp [setFoldWith, isZeroVal]
  · intro σ acc opts plan fs vis s h
    simp only [encodeF, stripM]
    rw [h]
    simp
  · intro σ acc opts elemTy elems st st2 s h
    constructor
    · simp only [hashSeqU]
      rw [h]
      simp
    · simp only [hashSeqU]
      rw [h]
      simp [seqUFold]
  · intro σ acc opts kt vt prs st st2 s h
    constructor
    · simp only [hashSeq2U]
      rw [h]
      simp
    · simp only [hashSeq2U]
      rw [h]
      simp [seq2UFold]

/-- Witness for C10: the unordered slice `[5, 5]` XOR-cancels and hashes
exactly like the empty slice, and the unordered sequence yielding `5, 5`
XOR-cancels and writes exactly the empty sequence's bytes. -/
theorem c10_fold_zero_witness :
    (encodeF listAcc opts0 (.eset .eint) (.vslice (some [.vint 5, .vint 5])) [] [] =
      encodeF listAcc opts0 (.eset .eint) (.vslice (some [])) [] []) ∧
    ((hashSeqU listAcc opts0 .tint (some [.vint 5, .vint 5]) newState []).1 =
      (hashSeqU listAcc opts0 .tint (some []) newState []).1) :=
  ⟨(c10_fold_zero.2.1 (List Nat) listAcc opts0 .eint [.vint 5, .vint 5] [] []
    (by decide)).2,
   (c10_fold_zero.2.2.2.1 (List Nat) listAcc opts0 .tint [.vint 5, .vint 5]
    newState ⟨[(.tint, .eint)], [.tint]⟩ [] rfl).2⟩

end Datahash
